import Mathlib

/-!
Verification of the `pygraphistry_conda` repository surface: the
`DataframeMask` sorted-mask set algebra (union, intersection, complement)
and the server config loader in `src/config.js`.

The `DataframeMask` implementation itself (`js/DataframeMask`) is not part
of the provided sources; only its test suite (`src/unnamed/part_001`) is.
The three operations are therefore modelled from the specification text,
and all mask theorems are checked against that model as well as against the
concrete test cases recorded in the test suite.
-/

namespace DataframeMask

/-- Modelled from the spec: the implementation `js/DataframeMask` is missing
from the sources (only its test file is present). Per the spec,
`unionOfTwoMasks(a, b)` "returns the sorted sequence of all indices present
in `a` or `b`, each appearing once"; output is sorted ascending and
duplicate-free even for unsorted or duplicated input. -/
def unionOfTwoMasks (a b : List ℕ) : List ℕ :=
  List.insertionSort (· ≤ ·) (a ++ b).dedup

/-- Modelled from the spec: the implementation `js/DataframeMask` is missing
from the sources (only its test file is present). Per the spec,
`intersectionOfTwoMasks(a, b)` "returns the sorted sequence of indices
present in both `a` and `b`". -/
def intersectionOfTwoMasks (a b : List ℕ) : List ℕ :=
  List.insertionSort (· ≤ ·) (a.dedup.filter (fun x => x ∈ b))

/-- Modelled from the spec: the implementation `js/DataframeMask` is missing
from the sources (only its test file is present). Per the spec,
`complementOfMask(a, N)` "returns the sorted sequence of all integers in
`[0, N)` not present in `a`"; values of `a` that are `>= N` are ignored. -/
def complementOfMask (a : List ℕ) (N : ℕ) : List ℕ :=
  (List.range N).filter (fun x => x ∉ a)

example : unionOfTwoMasks [] [] = [] := by decide
example : unionOfTwoMasks [3] [4] = [3, 4] := by decide
example : unionOfTwoMasks [4] [3] = [3, 4] := by decide
example : unionOfTwoMasks [3] [3] = [3] := by decide
example : unionOfTwoMasks [3, 7] [2, 5] = [2, 3, 5, 7] := by decide
example : unionOfTwoMasks [] [2, 5] = [2, 5] := by decide

example : intersectionOfTwoMasks [] [] = [] := by decide
example : intersectionOfTwoMasks [3] [4] = [] := by decide
example : intersectionOfTwoMasks [4] [3] = [] := by decide
example : intersectionOfTwoMasks [3] [3] = [3] := by decide
example : intersectionOfTwoMasks [3, 7] [2, 5] = [] := by decide
example : intersectionOfTwoMasks [] [2, 5] = [] := by decide

example : complementOfMask [3] 5 = [0, 1, 2, 4] := by decide
example : complementOfMask [0] 5 = [1, 2, 3, 4] := by decide
example : complementOfMask [5] 5 = [0, 1, 2, 3, 4] := by decide
example : complementOfMask [0, 1, 2, 3, 4] 5 = [] := by decide
example : complementOfMask [0, 1] 5 = [2, 3, 4] := by decide
example : complementOfMask [0, 4] 5 = [1, 2, 3] := by decide
example : complementOfMask [6] 5 = [0, 1, 2, 3, 4] := by decide
example : complementOfMask [] 100 = List.range 100 := by decide

/-! Helper lemmas shared by the claim theorems. -/

theorem mem_unionOfTwoMasks {a b : List ℕ} {x : ℕ} :
    x ∈ unionOfTwoMasks a b ↔ x ∈ a ∨ x ∈ b := by
  unfold unionOfTwoMasks
  rw [List.mem_insertionSort, List.mem_dedup, List.mem_append]

theorem nodup_unionOfTwoMasks (a b : List ℕ) : (unionOfTwoMasks a b).Nodup :=
  (List.perm_insertionSort _ _).nodup_iff.2 (List.nodup_dedup _)

theorem sorted_unionOfTwoMasks (a b : List ℕ) :
    (unionOfTwoMasks a b).Sorted (· < ·) :=
  (List.sorted_insertionSort _ _).lt_of_le (nodup_unionOfTwoMasks a b)

theorem mem_intersectionOfTwoMasks {a b : List ℕ} {x : ℕ} :
    x ∈ intersectionOfTwoMasks a b ↔ x ∈ a ∧ x ∈ b := by
  unfold intersectionOfTwoMasks
  rw [List.mem_insertionSort, List.mem_filter, List.mem_dedup]
  simp

theorem nodup_intersectionOfTwoMasks (a b : List ℕ) :
    (intersectionOfTwoMasks a b).Nodup :=
  (List.perm_insertionSort _ _).nodup_iff.2
    ((List.nodup_dedup a).filter _)

theorem sorted_intersectionOfTwoMasks (a b : List ℕ) :
    (intersectionOfTwoMasks a b).Sorted (· < ·) :=
  (List.sorted_insertionSort _ _).lt_of_le (nodup_intersectionOfTwoMasks a b)

theorem mem_complementOfMask {a : List ℕ} {N x : ℕ} :
    x ∈ complementOfMask a N ↔ x < N ∧ x ∉ a := by
  simp [complementOfMask, List.mem_filter, List.mem_range]

theorem sorted_complementOfMask (a : List ℕ) (N : ℕ) :
    (complementOfMask a N).Sorted (· < ·) :=
  (List.sorted_lt_range N).filter _

theorem nodup_complementOfMask (a : List ℕ) (N : ℕ) :
    (complementOfMask a N).Nodup :=
  (sorted_complementOfMask a N).nodup

theorem eq_of_sorted_lt_of_mem_iff {l₁ l₂ : List ℕ}
    (h₁ : l₁.Sorted (· < ·)) (h₂ : l₂.Sorted (· < ·))
    (h : ∀ x, x ∈ l₁ ↔ x ∈ l₂) : l₁ = l₂ :=
  List.eq_of_perm_of_sorted
    ((List.perm_ext_iff_of_nodup h₁.nodup h₂.nodup).2 h) h₁ h₂

/-! Claim theorems. -/

/-- C1: for every pair of sequences of non-negative integers `a` and `b`,
`unionOfTwoMasks a b` is the sorted ascending sequence of all indices
present in `a` or `b`, each appearing exactly once (strict sortedness forces
uniqueness); in particular the union of two empty masks is empty and the
union of two equal singletons is that singleton. -/
theorem unionOfTwoMasks_spec (a b : List ℕ) :
    (unionOfTwoMasks a b).Sorted (· < ·) ∧
    (∀ x, x ∈ unionOfTwoMasks a b ↔ x ∈ a ∨ x ∈ b) ∧
    unionOfTwoMasks ([] : List ℕ) [] = [] ∧
    ∀ x : ℕ, unionOfTwoMasks [x] [x] = [x] := by
  refine ⟨sorted_unionOfTwoMasks a b, fun x => mem_unionOfTwoMasks, rfl, fun x => ?_⟩
  exact eq_of_sorted_lt_of_mem_iff (sorted_unionOfTwoMasks _ _)
    (List.sorted_singleton x) (by intro y; rw [mem_unionOfTwoMasks]; simp)

/-- C2: for every pair of sequences of non-negative integers `a` and `b`,
`intersectionOfTwoMasks a b` is the sorted ascending sequence of exactly the
indices present in both `a` and `b`; disjoint inputs give the empty
sequence, and so does an empty input on either side. -/
theorem intersectionOfTwoMasks_spec (a b : List ℕ) :
    (intersectionOfTwoMasks a b).Sorted (· < ·) ∧
    (∀ x, x ∈ intersectionOfTwoMasks a b ↔ x ∈ a ∧ x ∈ b) ∧
    ((∀ x, x ∈ a → x ∉ b) → intersectionOfTwoMasks a b = []) ∧
    intersectionOfTwoMasks [] b = [] ∧
    intersectionOfTwoMasks a [] = [] := by
  refine ⟨sorted_intersectionOfTwoMasks a b, fun x => mem_intersectionOfTwoMasks,
    fun hdisj => ?_, rfl, ?_⟩
  · exact eq_of_sorted_lt_of_mem_iff (sorted_intersectionOfTwoMasks _ _)
      (List.sorted_nil) (by
        intro y
        rw [mem_intersectionOfTwoMasks]
        simpa using fun hy hy2 => hdisj y hy hy2)
  · exact eq_of_sorted_lt_of_mem_iff (sorted_intersectionOfTwoMasks _ _)
      (List.sorted_nil) (by intro y; rw [mem_intersectionOfTwoMasks]; simp)

/-- C2 witness: the theorem applied at the disjoint concrete masks `[3, 7]`
and `[2, 5]` from the test suite, discharging the disjointness hypothesis. -/
theorem intersectionOfTwoMasks_spec_witness :
    intersectionOfTwoMasks [3, 7] [2, 5] = [] :=
  (intersectionOfTwoMasks_spec [3, 7] [2, 5]).2.2.1 (by decide)

/-- C3: for every sequence of non-negative integers `a` and universe size
`N`, `complementOfMask a N` is the sorted ascending sequence of all integers
in `[0, N)` not present in `a`; for `N = 0`, or when `a` covers all of
`[0, N)`, the result is empty. -/
theorem complementOfMask_spec (a : List ℕ) (N : ℕ) :
    (complementOfMask a N).Sorted (· < ·) ∧
    (∀ x, x ∈ complementOfMask a N ↔ x < N ∧ x ∉ a) ∧
    complementOfMask a 0 = [] ∧
    ((∀ x, x < N → x ∈ a) → complementOfMask a N = []) := by
  refine ⟨sorted_complementOfMask a N, fun x => mem_complementOfMask, rfl,
    fun hcov => ?_⟩
  exact eq_of_sorted_lt_of_mem_iff (sorted_complementOfMask _ _)
    (List.sorted_nil) (by
      intro y
      rw [mem_complementOfMask]
      simpa using fun hy => hcov y hy)

/-- C3 witness: the theorem applied at the covering mask `[0, 1, 2, 3, 4]`
with universe size `5` from the test suite, discharging the coverage
hypothesis. -/
theorem complementOfMask_spec_witness :
    complementOfMask [0, 1, 2, 3, 4] 5 = [] :=
  (complementOfMask_spec [0, 1, 2, 3, 4] 5).2.2.2 (by decide)

/-- C4: elements of `a` that are `≥ N` have no effect on
`complementOfMask a N`: the result equals the complement of the
subsequence of `a` restricted to values `< N`; in particular
`complementOfMask [6] 5 = [0, 1, 2, 3, 4]` and
`complementOfMask [5] 5 = [0, 1, 2, 3, 4]`. -/
theorem complementOfMask_ignores_out_of_universe (a : List ℕ) (N : ℕ) :
    complementOfMask a N = complementOfMask (a.filter (fun x => x < N)) N ∧
    complementOfMask [6] 5 = [0, 1, 2, 3, 4] ∧
    complementOfMask [5] 5 = [0, 1, 2, 3, 4] := by
  refine ⟨?_, by decide, by decide⟩
  apply eq_of_sorted_lt_of_mem_iff (sorted_complementOfMask _ _)
    (sorted_complementOfMask _ _)
  intro x
  rw [mem_complementOfMask, mem_complementOfMask]
  constructor
  · rintro ⟨hx, hxa⟩
    exact ⟨hx, fun hmem => hxa (List.mem_of_mem_filter hmem)⟩
  · rintro ⟨hx, hxa⟩
    exact ⟨hx, fun hmem => hxa (List.mem_filter.2 ⟨hmem, by simpa using hx⟩)⟩

/-- C5: for every input, including unsorted inputs and inputs with
duplicates, the output of each of the three operations is strictly
ascending and has no duplicate elements. -/
theorem mask_ops_sorted_nodup (a b : List ℕ) (N : ℕ) :
    ((unionOfTwoMasks a b).Sorted (· < ·) ∧ (unionOfTwoMasks a b).Nodup) ∧
    ((intersectionOfTwoMasks a b).Sorted (· < ·) ∧
      (intersectionOfTwoMasks a b).Nodup) ∧
    ((complementOfMask a N).Sorted (· < ·) ∧ (complementOfMask a N).Nodup) :=
  ⟨⟨sorted_unionOfTwoMasks a b, nodup_unionOfTwoMasks a b⟩,
   ⟨sorted_intersectionOfTwoMasks a b, nodup_intersectionOfTwoMasks a b⟩,
   ⟨sorted_complementOfMask a N, nodup_complementOfMask a N⟩⟩

/-- C6: union and intersection of masks are commutative. -/
theorem mask_ops_comm (a b : List ℕ) :
    unionOfTwoMasks a b = unionOfTwoMasks b a ∧
    intersectionOfTwoMasks a b = intersectionOfTwoMasks b a := by
  constructor
  · apply eq_of_sorted_lt_of_mem_iff (sorted_unionOfTwoMasks _ _)
      (sorted_unionOfTwoMasks _ _)
    intro x
    rw [mem_unionOfTwoMasks, mem_unionOfTwoMasks]
    exact or_comm
  · apply eq_of_sorted_lt_of_mem_iff (sorted_intersectionOfTwoMasks _ _)
      (sorted_intersectionOfTwoMasks _ _)
    intro x
    rw [mem_intersectionOfTwoMasks, mem_intersectionOfTwoMasks]
    exact and_comm

/-- C7: for every mask `a`, `unionOfTwoMasks a a` equals the sorted,
duplicate-free version of `a`. -/
theorem unionOfTwoMasks_self (a : List ℕ) :
    unionOfTwoMasks a a = List.insertionSort (· ≤ ·) a.dedup := by
  apply eq_of_sorted_lt_of_mem_iff (sorted_unionOfTwoMasks _ _)
    ((List.sorted_insertionSort _ _).lt_of_le
      ((List.perm_insertionSort _ _).nodup_iff.2 (List.nodup_dedup a)))
  intro x
  rw [mem_unionOfTwoMasks, List.mem_insertionSort, List.mem_dedup]
  exact or_self_iff

/-- C8: for every mask `a` (and `b`) whose elements lie below the universe
size `N`, the double complement, restricted to elements `< N`, equals the
in-universe subset of `a` (its elements `< N`), sorted and
duplicate-free. -/
theorem double_complementOfMask (a b : List ℕ) (N : ℕ)
    (ha : ∀ x ∈ a, x < N) (hb : ∀ x ∈ b, x < N) :
    (complementOfMask (complementOfMask a N) N).filter (fun x => x < N)
      = List.insertionSort (· ≤ ·) (a.filter (fun x => x < N)).dedup := by
  apply eq_of_sorted_lt_of_mem_iff ((sorted_complementOfMask _ _).filter _)
    ((List.sorted_insertionSort _ _).lt_of_le
      ((List.perm_insertionSort _ _).nodup_iff.2 (List.nodup_dedup _)))
  intro x
  simp only [List.mem_filter, mem_complementOfMask, List.mem_insertionSort,
    List.mem_dedup, decide_eq_true_eq]
  tauto

/-- C8 witness: the theorem applied at `a = [2, 0]`, `b = [1]`, `N = 3`,
discharging both boundedness hypotheses. -/
theorem double_complementOfMask_witness :
    (complementOfMask (complementOfMask [2, 0] 3) 3).filter (fun x => x < 3)
      = List.insertionSort (· ≤ ·) ([2, 0].filter (fun x => x < 3)).dedup :=
  double_complementOfMask [2, 0] [1] 3 (by decide) (by decide)

/-- C9: all three operations are total over sequences of non-negative
integers and a non-negative universe size: for every input they are defined
and return a value. Purity holds by construction: the operations are
modelled as pure functions of their arguments, which are never modified. -/
theorem mask_ops_total (a b : List ℕ) (N : ℕ) :
    (∃ u : List ℕ, unionOfTwoMasks a b = u) ∧
    (∃ i : List ℕ, intersectionOfTwoMasks a b = i) ∧
    (∃ c : List ℕ, complementOfMask a N = c) :=
  ⟨⟨_, rfl⟩, ⟨_, rfl⟩, ⟨_, rfl⟩⟩

end DataframeMask

namespace Config

/-- A config option value in src/config.js: the defaults mix strings and
numbers. -/
inductive OptValue where
  | str : String → OptValue
  | num : ℕ → OptValue
deriving DecidableEq

/-- The `defaultOptions` object of src/config.js (lines 9-18), as an
ordered association list mirroring JS object key order. -/
def defaultOptions : List (String × OptValue) :=
  [("VIZ_LISTEN_ADDRESS", OptValue.str "0.0.0.0"),
   ("VIZ_LISTEN_PORT", OptValue.num 10000),
   ("HTTP_LISTEN_ADDRESS", OptValue.str "localhost"),
   ("HTTP_LISTEN_PORT", OptValue.num 3000),
   ("MONGO_SERVER", OptValue.str "localhost"),
   ("DATABASE", OptValue.str "graphistry-dev"),
   ("HOSTNAME", OptValue.str "localhost"),
   ("DATALISTURI", OptValue.str "node_modules/datasets/all.json")]

/-- One assignment step of underscore's `_.extend`: `obj[key] = value` on a
JS object, replacing an existing binding in place or appending a new key at
the end. -/
def setKey : List (String × OptValue) → String → OptValue →
    List (String × OptValue)
  | [], k, v => [(k, v)]
  | (k₀, v₀) :: t, k, v =>
    if k₀ = k then (k, v) :: t else (k₀, v₀) :: setKey t k v

/-- `_.extend(destination, source)` from underscore, as called on
src/config.js line 29: copies each own key of `source` into `destination`
in order, overwriting existing keys. -/
def extendOptions (d c : List (String × OptValue)) :
    List (String × OptValue) :=
  c.foldl (fun acc p => setKey acc p.1 p.2) d

/-- The config loader of src/config.js (`module.exports`, lines 8-32): when
`process.argv` has more than two entries it parses `process.argv[2]` as
JSON, swallowing any parse error (modelled by `parse` returning `none`, in
which case the command-line options stay the empty object `\x7b\x7d`), then
extends the default options with the parsed key/value pairs. `parse`
abstracts `JSON.parse` followed by own-key enumeration. -/
def loadConfig (parse : String → Option (List (String × OptValue)))
    (argv : List String) : List (String × OptValue) :=
  let commandLineOptions : List (String × OptValue) :=
    if h : 2 < argv.length then
      match parse (argv.get ⟨2, h⟩) with
      | some kvs => kvs
      | none => []
    else []
  extendOptions defaultOptions commandLineOptions

theorem extendOptions_nil (d : List (String × OptValue)) :
    extendOptions d [] = d := rfl

theorem extendOptions_cons (d : List (String × OptValue))
    (p : String × OptValue) (tl : List (String × OptValue)) :
    extendOptions d (p :: tl) = extendOptions (setKey d p.1 p.2) tl := rfl

theorem lookup_setKey_self (l : List (String × OptValue)) (k : String)
    (v : OptValue) : (setKey l k v).lookup k = some v := by
  induction l with
  | nil => simp [setKey, List.lookup]
  | cons hd tl ih =>
    obtain ⟨k₀, v₀⟩ := hd
    by_cases h0 : k₀ = k
    · simp [setKey, h0, List.lookup]
    · have hb : (k == k₀) = false := beq_eq_false_iff_ne.mpr (Ne.symm h0)
      simp [setKey, h0, List.lookup, hb, ih]

theorem lookup_setKey_ne (l : List (String × OptValue)) {k k' : String}
    (v : OptValue) (h : k' ≠ k) :
    (setKey l k v).lookup k' = l.lookup k' := by
  induction l with
  | nil =>
    have hb : (k' == k) = false := beq_eq_false_iff_ne.mpr h
    simp [setKey, List.lookup, hb]
  | cons hd tl ih =>
    obtain ⟨k₀, v₀⟩ := hd
    by_cases h0 : k₀ = k
    · subst h0
      have hb : (k' == k₀) = false := beq_eq_false_iff_ne.mpr h
      simp [setKey, List.lookup, hb]
    · simp [setKey, h0, List.lookup, ih]

theorem lookup_extendOptions_not_mem (c : List (String × OptValue))
    (d : List (String × OptValue)) {k : String}
    (hk : k ∉ c.map Prod.fst) :
    (extendOptions d c).lookup k = d.lookup k := by
  induction c generalizing d with
  | nil => rfl
  | cons hd tl ih =>
    obtain ⟨k₀, v₀⟩ := hd
    simp only [List.map_cons, List.mem_cons, not_or] at hk
    rw [extendOptions_cons, ih _ hk.2, lookup_setKey_ne _ _ hk.1]

theorem lookup_extendOptions_mem (c : List (String × OptValue))
    (d : List (String × OptValue)) (hc : (c.map Prod.fst).Nodup)
    {k : String} {v : OptValue} (hkv : (k, v) ∈ c) :
    (extendOptions d c).lookup k = some v := by
  induction c generalizing d with
  | nil => cases hkv
  | cons hd tl ih =>
    obtain ⟨k₀, v₀⟩ := hd
    simp only [List.map_cons, List.nodup_cons] at hc
    rcases List.mem_cons.1 hkv with heq | hmem
    · injection heq with h1 h2
      subst h1
      subst h2
      rw [extendOptions_cons, lookup_extendOptions_not_mem tl _ hc.1]
      exact lookup_setKey_self d k v
    · exact ih (setKey d k₀ v₀) hc.2 hmem

/-- C10: the config loader returns the default option set with each key of
the JSON object parsed from the third command-line argument overriding the
corresponding default (keys absent from the parsed object keep their
default); with fewer than three arguments, or when the argument is not
valid JSON (the parse error is swallowed, modelled by `parse` returning
`none`), it returns exactly the default options. -/
theorem loadConfig_spec (parse : String → Option (List (String × OptValue)))
    (argv : List String) :
    (argv.length ≤ 2 → loadConfig parse argv = defaultOptions) ∧
    (∀ h : 2 < argv.length, parse (argv.get ⟨2, h⟩) = none →
      loadConfig parse argv = defaultOptions) ∧
    (∀ (h : 2 < argv.length) (kvs : List (String × OptValue)),
      parse (argv.get ⟨2, h⟩) = some kvs → (kvs.map Prod.fst).Nodup →
      (∀ k v, (k, v) ∈ kvs → (loadConfig parse argv).lookup k = some v) ∧
      (∀ k, k ∉ kvs.map Prod.fst →
        (loadConfig parse argv).lookup k = defaultOptions.lookup k)) := by
  refine ⟨fun hle => ?_, fun h hnone => ?_, fun h kvs hsome hnodup => ?_⟩
  · simp only [loadConfig]
    rw [dif_neg (by omega)]
    rfl
  · simp only [loadConfig]
    rw [dif_pos h, hnone]
    rfl
  · constructor
    · intro k v hkv
      simp only [loadConfig]
      rw [dif_pos h, hsome]
      exact lookup_extendOptions_mem kvs defaultOptions hnodup hkv
    · intro k hk
      simp only [loadConfig]
      rw [dif_pos h, hsome]
      exact lookup_extendOptions_not_mem kvs defaultOptions hk

/-- C10 witness: the theorem applied at concrete argument vectors — an
unparseable third argument yields exactly the defaults, and a parsed object
overrides the `HOSTNAME` default while leaving `DATABASE` untouched. -/
theorem loadConfig_spec_witness :
    loadConfig (fun _ => none) ["node", "server.js", "notjson"]
      = defaultOptions ∧
    (loadConfig (fun _ => some [("HOSTNAME", OptValue.str "example.org")])
        ["node", "server.js", "cfg"]).lookup "HOSTNAME"
      = some (OptValue.str "example.org") ∧
    (loadConfig (fun _ => some [("HOSTNAME", OptValue.str "example.org")])
        ["node", "server.js", "cfg"]).lookup "DATABASE"
      = defaultOptions.lookup "DATABASE" :=
  ⟨(loadConfig_spec (fun _ => none) ["node", "server.js", "notjson"]).2.1
      (by decide) rfl,
   ((loadConfig_spec (fun _ => some [("HOSTNAME", OptValue.str "example.org")])
        ["node", "server.js", "cfg"]).2.2 (by decide) _ rfl
        (by simp)).1 "HOSTNAME" (OptValue.str "example.org") (by simp),
   ((loadConfig_spec (fun _ => some [("HOSTNAME", OptValue.str "example.org")])
        ["node", "server.js", "cfg"]).2.2 (by decide) _ rfl
        (by simp)).2 "DATABASE" (by simp)⟩

end Config
